import Mathlib

/-!
Verification development for the wasmjit single-pass x86_64 JIT compiler
core (src/wasmjit/compile.c).  The definitions below are a shallow
embedding of the compiler: byte buffers are lists of naturals (each the
value of one emitted byte), the side tables (relocations, branch points,
label continuations) are lists, and the static stack is a list whose head
is the top of the stack.  Machine integers are modelled as Nat/Int with
explicit reduction modulo 2^w where overflow matters.  Fallible code
(vector growth, internal assertions, the goto-error paths) is modelled
with Option.
-/

/-- INT32_MAX, the bound used by the compiler's __builtin_*_overflow
checks into int32_t temporaries. -/
def INT32_MAX : Nat := 2147483647

/-- FUNC_EXIT_CONT (compile.c line 39): SIZE_MAX, the sentinel
continuation index that the branch fixup loop resolves to the epilogue. -/
def FUNC_EXIT_CONT : Nat := 2 ^ 64 - 1

/-- encode_le_uint32_t (compile.c lines 104-108): the four little-endian
bytes of a 32-bit value.  Arguments wider than 32 bits are truncated the
way the C conversion to uint32_t truncates them. -/
def encode_le_uint32_t (val : Nat) : List Nat :=
  [val % 256, val / 256 % 256, val / 2 ^ 16 % 256, val / 2 ^ 24 % 256]

/-- encode_le_uint64_t: the eight little-endian bytes of a 64-bit value
(used for the i64.const / f64.const immediates). -/
def encode_le_uint64_t (val : Nat) : List Nat :=
  [val % 256, val / 256 % 256, val / 2 ^ 16 % 256, val / 2 ^ 24 % 256,
   val / 2 ^ 32 % 256, val / 2 ^ 40 % 256, val / 2 ^ 48 % 256, val / 2 ^ 56 % 256]

/-- Little-endian bytes of a signed value converted to uint32_t
(two's complement). -/
def encode_le_int32 (i : Int) : List Nat :=
  encode_le_uint32_t ((i % (2 ^ 32 : Int)).toNat)

/-- OUTB (compile.c lines 119-127): emit one byte.  The macro asserts
-128 <= b <= 127 and stores the char; the stored byte is the two's
complement image. -/
def outb (i : Int) : Option (List Nat) :=
  if -128 ≤ i ∧ i ≤ 127 then some [((i % (256 : Int))).toNat] else none

/-- Overwrite bytes of a buffer starting at a given offset, one List.set
per byte (the memcpy into output->elts used by the back-patching code).
Writes past the end of the buffer are dropped, matching List.set. -/
def storeBytesAt : List Nat → Nat → List Nat → List Nat
  | l, _, [] => l
  | l, off, b :: bs => storeBytesAt (l.set off b) (off + 1) bs

/-- Read the four bytes at a given offset of a buffer (0 past the end). -/
def readLE32 (l : List Nat) (off : Nat) : List Nat :=
  [l.getD off 0, l.getD (off + 1) 0, l.getD (off + 2) 0, l.getD (off + 3) 0]

/-- Value of a 64-bit register interpreted as a signed integer (the view
the cmp/jle pair takes of %rsi and %rax). -/
def toInt64 (n : Nat) : Int :=
  if n % 2 ^ 64 < 2 ^ 63 then ((n % 2 ^ 64 : Nat) : Int)
  else ((n % 2 ^ 64 : Nat) : Int) - 2 ^ 64

/-- Value types (wasmjit_valtype_t). -/
inductive Valtype where
  | i32
  | i64
  | f32
  | f64
deriving DecidableEq

/-- Static stack slot (struct StackElt, compile.c lines 62-76): either a
value slot of a given type, or a label marker carrying its arity and
continuation index. -/
inductive StackElt where
  | val (t : Valtype)
  | label (arity : Nat) (continuation_idx : Nat)
deriving DecidableEq

/-- Whether a static stack slot is a label marker (type == STACK_LABEL). -/
def isLabelElt : StackElt → Bool
  | .label _ _ => true
  | .val _ => false

/-- Relocation kinds (enum in wasmjit/compile.h: MEMREF_FUNC,
MEMREF_GLOBAL, MEMREF_MEM, MEMREF_TABLE, MEMREF_TYPE,
MEMREF_RESOLVE_INDIRECT_CALL). -/
inductive MemRefKind where
  | func
  | global
  | mem
  | table
  | typ
  | resolveIndirectCall
deriving DecidableEq

/-- One relocation entry.  kind models the C field named type. -/
structure MemRef where
  kind : MemRefKind
  code_offset : Nat
  idx : Nat
deriving DecidableEq

/-- struct BranchPointElt (compile.c lines 45-48). -/
structure BranchPointElt where
  branch_offset : Nat
  continuation_idx : Nat
deriving DecidableEq

/-- Function type: input value types and output value types (the core
asserts at most one output). -/
structure FuncType where
  inputs : List Valtype
  outputs : List Valtype
deriving DecidableEq

/-- Global type: just the value type matters to the compiler core. -/
structure GlobalType where
  valtype : Valtype
deriving DecidableEq

/-- struct ModuleTypes: the per-module type tables the compiler reads. -/
structure ModuleTypes where
  functypes : List FuncType
  globaltypes : List GlobalType
deriving DecidableEq

/-- struct LocalsMD (compile.c lines 129-132). -/
structure LocalsMD where
  valtype : Valtype
  fp_offset : Int
deriving DecidableEq

/-- The load/store opcodes handled by the combined memory-access case of
wasmjit_compile_instruction (compile.c lines 1081-1285). -/
inductive LSOp where
  | i32_load
  | i64_load
  | f64_load
  | i32_load8_s
  | i32_store
  | i64_store
  | f64_store
  | i32_store8
  | i32_store16
deriving DecidableEq

/-- Access width in bytes of each load/store opcode, read off the
emitted mov instruction (movsbl/movb: 1, movw: 2, movl: 4, movq: 8). -/
def lsWidth : LSOp → Nat
  | .i32_load8_s => 1
  | .i32_store8 => 1
  | .i32_store16 => 2
  | .i32_load => 4
  | .i32_store => 4
  | .i64_load => 8
  | .i64_store => 8
  | .f64_load => 8
  | .f64_store => 8

/-- Whether the opcode is a store (pops the value before the address). -/
def lsIsStore : LSOp → Bool
  | .i32_store => true
  | .i64_store => true
  | .f64_store => true
  | .i32_store8 => true
  | .i32_store16 => true
  | _ => false

/-- Static stack type the store opcodes assert for the popped value. -/
def lsStoreValType : LSOp → Valtype
  | .i64_store => .i64
  | .f64_store => .f64
  | _ => .i32

/-- Static stack type pushed by the load opcodes. -/
def lsLoadValType : LSOp → Valtype
  | .i64_load => .i64
  | .f64_load => .f64
  | _ => .i32

/-- Modelled from the spec: byte offset of the MemInst size field
(offsetof(struct MemInst, size)); struct MemInst lives in
wasmjit/runtime.h, outside this tree.  The spec only fixes that the
field exists; the concrete value is the runtime ABI's and no claim
depends on it. -/
def memInst_size_offset : Nat := 0

/-- Modelled from the spec: byte offset of the MemInst data field
(offsetof(struct MemInst, data)); see memInst_size_offset. -/
def memInst_data_offset : Nat := 8

/-- Modelled from the spec: byte offset of FuncInst.compiled_code
(offsetof(struct FuncInst, compiled_code)) in wasmjit/runtime.h. -/
def funcInst_compiled_code_offset : Nat := 0

/-- Modelled from the spec: byte offset of GlobalInst.value.data
(offsetof(struct GlobalInst, value) + offsetof(struct Value, data));
the union members i32/i64/f32/f64 all sit at offset 0 of the union. -/
def globalInst_value_data_offset : Nat := 8

/- The instruction tree handled by this development: the control,
call, local/global, memory, constant and conversion opcodes of
wasmjit_compile_instruction that the claims are about.  Block bodies
are inner instruction lists (nested control). -/
mutual
inductive Instr where
  | unreachable
  | nop
  | block (blocktype : Option Valtype) (body : InstrList)
  | loop (blocktype : Option Valtype) (body : InstrList)
  | br (labelidx : Nat)
  | br_if (labelidx : Nat)
  | ret
  | call (funcidx : Nat)
  | call_indirect (typeidx : Nat)
  | drop
  | get_local (localidx : Nat)
  | set_local (localidx : Nat)
  | get_global (globalidx : Nat)
  | set_global (globalidx : Nat)
  | loadstore (op : LSOp) (offset : Nat)
  | i32_const (v : Nat)
  | i64_const (v : Nat)
  | i32_wrap_i64
  | i64_extend_u_i32
inductive InstrList where
  | nil
  | cons (i : Instr) (rest : InstrList)
end

/-- The declared locals of a function body: a list of (count, valtype)
runs, as in struct CodeSectionCode. -/
structure CodeSectionCode where
  locals : List (Nat × Valtype)
  body : InstrList

/-- The read-only arguments threaded through
wasmjit_compile_instruction (func_types, module_types, type, locals
metadata, n_frame_locals). -/
structure CompileCtx where
  func_types : List FuncType
  module_types : ModuleTypes
  type : FuncType
  locals_md : List LocalsMD
  n_frame_locals : Nat

/-- The five mutated tables of the compiler: the output byte buffer,
the label continuation table, the branch point table, the relocation
table and the static stack (head = top of stack). -/
structure CompileState where
  output : List Nat
  labels : List Nat
  branches : List BranchPointElt
  memrefs : List MemRef
  sstack : List StackElt
deriving DecidableEq

/-- push_stack (compile.c lines 82-90). -/
def push_stack (sstack : List StackElt) (t : Valtype) : List StackElt :=
  .val t :: sstack

/-- peek_stack (compile.c lines 92-96); asserts a non-empty stack. -/
def peek_stack (sstack : List StackElt) : Option StackElt :=
  sstack.head?

/-- pop_stack (compile.c lines 98-102); asserts a non-empty stack. -/
def pop_stack (sstack : List StackElt) : Option (List StackElt) :=
  match sstack with
  | [] => none
  | _ :: rest => some rest

/-- Pop with the type assertion the call sites make first
(assert(peek_stack(sstack) == STACK_xx)). -/
def pop_stack_typed (sstack : List StackElt) (t : Valtype) : Option (List StackElt) :=
  match sstack with
  | .val t' :: rest => if t' = t then some rest else none
  | _ => none

/-- The scan at the head of emit_br_code (compile.c lines 159-169):
walk the static stack from the top, skipping labelidx label slots; the
result is the distance from the top (number of slots strictly above) of
the labelidx-th label slot, counting from 0. -/
def findLabel : List StackElt → Nat → Option Nat
  | [], _ => none
  | .label _ _ :: _, 0 => some 0
  | .label _ _ :: rest, l + 1 => (findLabel rest l).map (· + 1)
  | .val _ :: rest, l => (findLabel rest l).map (· + 1)

/-- The stack_shift computation of emit_br_code (compile.c lines
159-175), in bytes.  With j the C index of the found label and p its
distance from the top, n_elts - j = p + 1, so the C expression
(n_elts - j - (labelidx+1) - arity) * 8 is 8 * (p - labelidx - arity).
The assert at line 172 requires p >= labelidx + arity and the
__builtin_mul_overflow into int32_t requires the product to fit. -/
def br_stack_shift (sstack : List StackElt) (labelidx : Nat) : Option Nat :=
  match findLabel sstack labelidx with
  | none => none
  | some p =>
    match sstack.get? p with
    | some (.label arity _) =>
      if labelidx + arity ≤ p then
        if 8 * (p - labelidx - arity) ≤ INT32_MAX then
          some (8 * (p - labelidx - arity))
        else none
      else none
    | _ => none

/-- The placeholder for an 8-byte absolute immediate: movq $const, %rax
is emitted as 48 b8 followed by eight 0x90 bytes that the loader
overwrites. -/
def movq_rax_placeholder : List Nat :=
  [0x48, 0xb8, 0x90, 0x90, 0x90, 0x90, 0x90, 0x90, 0x90, 0x90]

/-- emit_br_code (compile.c lines 149-271).  Emits the stack unwinding
code and the placeholder jump for a branch to label index labelidx,
and records the branch point.  The static stack is only read. -/
def emit_br_code (output : List Nat) (sstack : List StackElt)
    (branches : List BranchPointElt) (labelidx : Nat) :
    Option (List Nat × List BranchPointElt) :=
  match findLabel sstack labelidx with
  | none => none
  | some p =>
    match sstack.get? p with
    | some (.label arity cont) =>
      match br_stack_shift sstack labelidx with
      | none => none
      | some stack_shift =>
        if arity ≠ 0 then
          -- the descending string-move of the top arity cells
          if 8 * (arity - 1) ≤ INT32_MAX ∧
             8 * (arity - 1) + stack_shift ≤ INT32_MAX ∧ arity ≤ INT32_MAX then
            let off := 8 * (arity - 1)
            let moveBytes :=
              [0x48, 0x89, 0xe6]
              ++ (if arity - 1 ≠ 0 then [0x48, 0x03, 0x34, 0x25] ++ encode_le_uint32_t off else [])
              ++ [0x48, 0x89, 0xe7]
              ++ (if (arity - 1) + stack_shift ≠ 0 then
                    [0x48, 0x81, 0xc7] ++ encode_le_uint32_t (off + stack_shift) else [])
              ++ [0x48, 0xc7, 0xc1] ++ encode_le_uint32_t arity
              ++ [0xfd] ++ [0x48, 0xa5]
            let shiftBytes :=
              if stack_shift ≠ 0 then [0x48, 0x81, 0xc4] ++ encode_le_uint32_t stack_shift else []
            let je_offset_2 := (output ++ moveBytes ++ shiftBytes).length
            some (output ++ moveBytes ++ shiftBytes ++ [0xe9, 0x90, 0x90, 0x90, 0x90],
                  branches ++ [⟨je_offset_2, cont⟩])
          else none
        else
          let shiftBytes :=
            if stack_shift ≠ 0 then [0x48, 0x81, 0xc4] ++ encode_le_uint32_t stack_shift else []
          let je_offset_2 := (output ++ shiftBytes).length
          some (output ++ shiftBytes ++ [0xe9, 0x90, 0x90, 0x90, 0x90],
                branches ++ [⟨je_offset_2, cont⟩])
    | _ => none

/-- The movq $const, %rdi placeholder (48 bf + eight loader-patched
bytes) used for the Table relocation of call_indirect. -/
def movq_rdi_placeholder : List Nat :=
  [0x48, 0xbf, 0x90, 0x90, 0x90, 0x90, 0x90, 0x90, 0x90, 0x90]

/-- The movq $const, %rsi placeholder (48 be + eight loader-patched
bytes) used for the Type relocation of call_indirect. -/
def movq_rsi_placeholder : List Nat :=
  [0x48, 0xbe, 0x90, 0x90, 0x90, 0x90, 0x90, 0x90, 0x90, 0x90]

/-- compile.c lines 1081-1285: the combined load/store case of
wasmjit_compile_instruction.  Stores first pop their value (into %rdi),
then the i32 address is popped into %rsi, ea is advanced by
memarg.offset + 4 (computed as uint32), the owning memory's size is
fetched through a Mem relocation and compared (cmp %rax,%rsi; jle +2;
int $4), the data pointer is fetched through a second Mem relocation,
and the access is performed at -4(%rax,%rsi). -/
def compile_loadstore (op : LSOp) (offset : Nat) (st : CompileState) :
    Option CompileState :=
  match (if lsIsStore op then
           (pop_stack_typed st.sstack (lsStoreValType op)).map (fun s => (s, [0x5f]))
         else some (st.sstack, [])) with
  | none => none
  | some (s1, popBytes) =>
    match pop_stack_typed s1 .i32 with
    | none => none
    | some s2 =>
      let out1 := st.output ++ popBytes ++ [0x5e]
      let imm := (4 + offset) % 2 ^ 32
      let out2 := out1 ++ (if imm ≠ 0 then [0x48, 0x81, 0xc6] ++ encode_le_uint32_t imm else [])
      let mr1 : MemRef := ⟨.mem, (out2 ++ movq_rax_placeholder).length - 8, 0⟩
      let out3 := out2 ++ movq_rax_placeholder
                   ++ [0x48, 0x8b, 0x40, memInst_size_offset]
                   ++ [0x48, 0x39, 0xc6] ++ [0x7e, 0x02, 0xcd, 0x04]
      let mr2 : MemRef := ⟨.mem, (out3 ++ movq_rax_placeholder).length - 8, 0⟩
      let out4 := out3 ++ movq_rax_placeholder ++ [0x48, 0x8b, 0x40, memInst_data_offset]
      let accessBytes := match op with
        | .i32_load8_s => [0x0f, 0xbe, 0x44, 0x30, 0xfc]
        | .i32_load => [0x8b, 0x44, 0x30, 0xfc]
        | .i64_load => [0x48, 0x8b, 0x44, 0x30, 0xfc]
        | .f64_load => [0x48, 0x8b, 0x44, 0x30, 0xfc]
        | .i32_store => [0x89, 0x7c, 0x30, 0xfc]
        | .i32_store8 => [0x40, 0x88, 0x7c, 0x30, 0xfc]
        | .i32_store16 => [0x66, 0x89, 0x7c, 0x30, 0xfc]
        | .i64_store => [0x48, 0x89, 0x7c, 0x30, 0xfc]
        | .f64_store => [0x48, 0x89, 0x7c, 0x30, 0xfc]
      if lsIsStore op then
        some { st with output := out4 ++ accessBytes,
                       memrefs := st.memrefs ++ [mr1, mr2],
                       sstack := s2 }
      else
        some { st with output := out4 ++ accessBytes ++ [0x50],
                       memrefs := st.memrefs ++ [mr1, mr2],
                       sstack := push_stack s2 (lsLoadValType op) }

/-- compile.c lines 953-1015: OPCODE_GET_GLOBAL. -/
def compile_get_global (c : CompileCtx) (gidx : Nat) (st : CompileState) :
    Option CompileState :=
  match c.module_types.globaltypes.get? gidx with
  | none => none
  | some gt =>
    let mr : MemRef := ⟨.global, (st.output ++ movq_rax_placeholder).length - 8, gidx⟩
    let ldBytes := match gt.valtype with
      | .i32 => [0x8b, 0x40, globalInst_value_data_offset]
      | .f32 => [0x8b, 0x40, globalInst_value_data_offset]
      | .i64 => [0x48, 0x8b, 0x40, globalInst_value_data_offset]
      | .f64 => [0x48, 0x8b, 0x40, globalInst_value_data_offset]
    some { st with output := st.output ++ movq_rax_placeholder ++ ldBytes ++ [0x50],
                   memrefs := st.memrefs ++ [mr],
                   sstack := push_stack st.sstack gt.valtype }

/-- compile.c lines 1016-1080: OPCODE_SET_GLOBAL. -/
def compile_set_global (c : CompileCtx) (gidx : Nat) (st : CompileState) :
    Option CompileState :=
  match c.module_types.globaltypes.get? gidx with
  | none => none
  | some gt =>
    match pop_stack_typed st.sstack gt.valtype with
    | none => none
    | some s1 =>
      let out1 := st.output ++ [0x5a]
      let mr : MemRef := ⟨.global, (out1 ++ movq_rax_placeholder).length - 8, gidx⟩
      let stBytes := match gt.valtype with
        | .i32 => [0x89, 0x50, globalInst_value_data_offset]
        | .f32 => [0x89, 0x50, globalInst_value_data_offset]
        | .i64 => [0x48, 0x89, 0x50, globalInst_value_data_offset]
        | .f64 => [0x48, 0x89, 0x50, globalInst_value_data_offset]
      some { st with output := out1 ++ movq_rax_placeholder ++ stBytes,
                     memrefs := st.memrefs ++ [mr],
                     sstack := s1 }

/-- compile.c lines 802-830 (first half): count how many arguments
overflow the six general and eight SSE argument registers and are
therefore passed on the physical stack. -/
def countShuffleStackArgs : List Valtype → Nat → Nat → Nat → Nat
  | [], _, _, acc => acc
  | t :: rest, n_movs, n_xmm_movs, acc =>
    if (t = .i32 ∨ t = .i64) ∧ n_movs < 6 then
      countShuffleStackArgs rest (n_movs + 1) n_xmm_movs acc
    else if t = .f32 ∧ n_xmm_movs < 8 then
      countShuffleStackArgs rest n_movs (n_xmm_movs + 1) acc
    else if t = .f64 ∧ n_xmm_movs < 8 then
      countShuffleStackArgs rest n_movs (n_xmm_movs + 1) acc
    else
      countShuffleStackArgs rest n_movs n_xmm_movs (acc + 1)

/-- compile.c lines 771-778: mov N(%rsp), reg for the six general
argument registers rdi, rsi, rdx, rcx, r8, r9. -/
def shuffle_movs : List (List Nat) :=
  [[0x48, 0x8b, 0xbc, 0x24], [0x48, 0x8b, 0xb4, 0x24], [0x48, 0x8b, 0x94, 0x24],
   [0x48, 0x8b, 0x8c, 0x24], [0x4c, 0x8b, 0x84, 0x24], [0x4c, 0x8b, 0x8c, 0x24]]

/-- compile.c lines 780-789: movss N(%rsp), %xmm0-7. -/
def shuffle_f32_movs : List (List Nat) :=
  [[0xf3, 0x0f, 0x10, 0x84, 0x24], [0xf3, 0x0f, 0x10, 0x8c, 0x24],
   [0xf3, 0x0f, 0x10, 0x94, 0x24], [0xf3, 0x0f, 0x10, 0x9c, 0x24],
   [0xf3, 0x0f, 0x10, 0xa4, 0x24], [0xf3, 0x0f, 0x10, 0xac, 0x24],
   [0xf3, 0x0f, 0x10, 0xb4, 0x24], [0xf3, 0x0f, 0x10, 0xbc, 0x24]]

/-- compile.c lines 791-800: movsd N(%rsp), %xmm0-7. -/
def shuffle_f64_movs : List (List Nat) :=
  [[0xf2, 0x0f, 0x10, 0x84, 0x24], [0xf2, 0x0f, 0x10, 0x8c, 0x24],
   [0xf2, 0x0f, 0x10, 0x94, 0x24], [0xf2, 0x0f, 0x10, 0x9c, 0x24],
   [0xf2, 0x0f, 0x10, 0xa4, 0x24], [0xf2, 0x0f, 0x10, 0xac, 0x24],
   [0xf2, 0x0f, 0x10, 0xb4, 0x24], [0xf2, 0x0f, 0x10, 0xbc, 0x24]]

/-- compile.c lines 832-871: the per-argument marshalling loop of the
ABI shuffle.  Asserts that the static stack slot of each argument
(n_inputs - 1 - i slots below the top) has the declared type, then
emits a register mov or a push, tracking the running number of prior
stack pushes plus the alignment pad.  Returns the emitted bytes and the
final n_stack. -/
def emitShuffleArgs (sstack : List StackElt) (n_inputs aligned : Nat) :
    List Valtype → Nat → Nat → Nat → Nat → Option (List Nat × Nat)
  | [], _, _, _, n_stack => some ([], n_stack)
  | t :: rest, i, n_movs, n_xmm_movs, n_stack =>
    match sstack.get? (n_inputs - 1 - i) with
    | some (.val t') =>
      if t' = t then
        if (t = .i32 ∨ t = .i64) ∧ n_movs < 6 then
          let so : Int := ((n_inputs - i - 1 + n_stack + aligned : Nat) : Int) * 8
          (emitShuffleArgs sstack n_inputs aligned rest (i + 1) (n_movs + 1) n_xmm_movs n_stack).map
            (fun r => (shuffle_movs.getD n_movs [] ++ encode_le_int32 so ++ r.1, r.2))
        else if t = .f32 ∧ n_xmm_movs < 8 then
          let so : Int := ((n_inputs - i - 1 + n_stack + aligned : Nat) : Int) * 8
          (emitShuffleArgs sstack n_inputs aligned rest (i + 1) n_movs (n_xmm_movs + 1) n_stack).map
            (fun r => (shuffle_f32_movs.getD n_xmm_movs [] ++ encode_le_int32 so ++ r.1, r.2))
        else if t = .f64 ∧ n_xmm_movs < 8 then
          let so : Int := ((n_inputs - i - 1 + n_stack + aligned : Nat) : Int) * 8
          (emitShuffleArgs sstack n_inputs aligned rest (i + 1) n_movs (n_xmm_movs + 1) n_stack).map
            (fun r => (shuffle_f64_movs.getD n_xmm_movs [] ++ encode_le_int32 so ++ r.1, r.2))
        else
          let so : Int := ((i : Int) - ((n_inputs : Int) - 1) + n_stack + aligned) * 8
          (emitShuffleArgs sstack n_inputs aligned rest (i + 1) n_movs n_xmm_movs (n_stack + 1)).map
            (fun r => ([0xff, 0xb4, 0x24] ++ encode_le_int32 so ++ r.1, r.2))
      else none
    | _ => none

/-- compile.c lines 802-901 (second half): alignment pad, argument
shuffle, call *%rax, stack cleanup, static stack pop of the inputs and
push of the (at most one) output. -/
def compile_call_abi (ft : FuncType) (cur_stack_depth : Nat) (st : CompileState) :
    Option CompileState :=
  let cur1 := cur_stack_depth + countShuffleStackArgs ft.inputs 0 0 0
  let aligned := cur1 % 2
  let out1 := st.output ++ (if aligned = 1 then [0x48, 0x83, 0xec, 0x08] else [])
  match emitShuffleArgs st.sstack ft.inputs.length aligned ft.inputs 0 0 0 0 with
  | none => none
  | some (shuf, n_stack) =>
    let out2 := out1 ++ shuf ++ [0xff, 0xd0]
                ++ [0x48, 0x81, 0xc4] ++ encode_le_uint32_t ((n_stack + ft.inputs.length + aligned) * 8)
    if ft.inputs.length ≤ st.sstack.length then
      let s2 := st.sstack.drop ft.inputs.length
      match ft.outputs with
      | [] => some { st with output := out2, sstack := s2 }
      | [t] =>
        let out3 := out2 ++ (if t = .f32 ∨ t = .f64 then [0x66, 0x48, 0x0f, 0x7e, 0xc0] else [])
                    ++ [0x50]
        some { st with output := out3, sstack := push_stack s2 t }
      | _ => none
    else none

/- wasmjit_compile_instruction (compile.c lines 273-1847) over the
opcode subset of this development, and wasmjit_compile_instructions
(lines 1850-1888), the sequential driver over an instruction list. -/
mutual
def wasmjit_compile_instruction (c : CompileCtx) (i : Instr) (st : CompileState) :
    Option CompileState :=
  match i with
  | .unreachable =>
    -- compile.c line 311: OUTS("\x0f\0b").  The string literal contains
    -- an embedded NUL after the 0x0f byte (\0 followed by the character
    -- b), so strlen is 1 and the single byte 0x0f is appended.
    some { st with output := st.output ++ [0x0f] }
  | .nop => some st
  | .block bt body =>
    let arity := if bt.isSome then 1 else 0
    let label_idx := st.labels.length
    let stack_idx := st.sstack.length
    match wasmjit_compile_instructions c body
            { st with labels := st.labels ++ [0],
                      sstack := .label arity label_idx :: st.sstack } with
    | none => none
    | some st2 =>
      if stack_idx + arity ≤ st2.sstack.length then
        some { st2 with
               sstack := st2.sstack.take arity
                         ++ st2.sstack.drop (st2.sstack.length - stack_idx),
               labels := st2.labels.set label_idx st2.output.length }
      else none
  | .loop bt body =>
    let arity := if bt.isSome then 1 else 0
    let label_idx := st.labels.length
    let stack_idx := st.sstack.length
    let output_idx := st.output.length
    match wasmjit_compile_instructions c body
            { st with labels := st.labels ++ [0],
                      sstack := .label arity label_idx :: st.sstack } with
    | none => none
    | some st2 =>
      if stack_idx + arity ≤ st2.sstack.length then
        some { st2 with
               sstack := st2.sstack.take arity
                         ++ st2.sstack.drop (st2.sstack.length - stack_idx),
               labels := st2.labels.set label_idx output_idx }
      else none
  | .br l =>
    match emit_br_code st.output st.sstack st.branches l with
    | none => none
    | some (out, brs) => some { st with output := out, branches := brs }
  | .br_if l =>
    match pop_stack_typed st.sstack .i32 with
    | none => none
    | some s1 =>
      let out1 := st.output ++ [0x5e] ++ [0x85, 0xf6]
      let je_offset := out1.length
      match emit_br_code (out1 ++ [0x74, 0x01]) s1 st.branches l with
      | none => none
      | some (out3, br3) =>
        let offs := out3.length - je_offset - 2
        if 0 < offs ∧ offs < 128 then
          some { st with output := storeBytesAt out3 je_offset [0x74, offs],
                         sstack := s1, branches := br3 }
        else none
  | .ret =>
    let n_out := c.type.outputs.length
    let part1 : Option (List Nat) :=
      if n_out ≠ 0 then
        match outb (((n_out : Int) - 1) * 8) with
        | none => none
        | some b =>
          if 8 * (c.n_frame_locals + 1) ≤ 2 ^ 31 then
            some ([0x48, 0x8d, 0x74, 0x24] ++ b
                  ++ [0x48, 0x8d, 0xbd] ++ encode_le_int32 (((c.n_frame_locals : Int) + 1) * (-8))
                  ++ [0x48, 0xc7, 0xc1] ++ encode_le_uint32_t n_out
                  ++ [0xfd] ++ [0x48, 0xa5])
          else none
      else some []
    match part1 with
    | none => none
    | some p1 =>
      if 8 * (c.n_frame_locals + n_out) ≤ 2 ^ 31 then
        let out1 := st.output ++ p1 ++ [0x48, 0x8d, 0xa5]
                     ++ encode_le_int32 (((c.n_frame_locals : Int) + (n_out : Int)) * (-8))
        some { st with output := out1 ++ [0xe9, 0x90, 0x90, 0x90, 0x90],
                       branches := st.branches ++ [⟨out1.length, FUNC_EXIT_CONT⟩] }
      else none
  | .call fidx =>
    let cur0 := c.n_frame_locals + (st.sstack.filter (fun e => !(isLabelElt e))).length
    match c.module_types.functypes.get? fidx with
    | none => none
    | some ft =>
      let mr : MemRef := ⟨.func, st.output.length + 2, fidx⟩
      let out1 := st.output ++ movq_rax_placeholder
                   ++ [0x48, 0x8b, 0x40, funcInst_compiled_code_offset]
      compile_call_abi ft cur0 { st with output := out1, memrefs := st.memrefs ++ [mr] }
  | .call_indirect tidx =>
    let cur0 := c.n_frame_locals + (st.sstack.filter (fun e => !(isLabelElt e))).length
    match c.func_types.get? tidx with
    | none => none
    | some ft =>
      match pop_stack_typed st.sstack .i32 with
      | none => none
      | some s1 =>
        let out1 := st.output ++ movq_rdi_placeholder
        let mr1 : MemRef := ⟨.table, out1.length - 8, 0⟩
        let out2 := out1 ++ movq_rsi_placeholder
        let mr2 : MemRef := ⟨.typ, out2.length - 8, tidx⟩
        let out3 := out2 ++ [0x5a] ++ movq_rax_placeholder
        -- idx of the ResolveIndirectCall entry is left uninitialized in
        -- the C (compile.c lines 722-731); modelled as 0.
        let mr3 : MemRef := ⟨.resolveIndirectCall, out3.length - 8, 0⟩
        let out4 := out3 ++ (if cur0 % 2 = 1 then [0x48, 0x83, 0xec, 0x08] else [])
                     ++ [0xff, 0xd0]
                     ++ (if cur0 % 2 = 1 then [0x48, 0x83, 0xc4, 0x08] else [])
        compile_call_abi ft cur0
          { st with output := out4, memrefs := st.memrefs ++ [mr1, mr2, mr3], sstack := s1 }
  | .drop =>
    match pop_stack st.sstack with
    | none => none
    | some s1 =>
      some { st with output := st.output ++ [0x48, 0x83, 0xc4, 0x08], sstack := s1 }
  | .get_local idx =>
    match c.locals_md.get? idx with
    | none => none
    | some md =>
      some { st with sstack := push_stack st.sstack md.valtype,
                     output := st.output ++ [0xff, 0xb5] ++ encode_le_int32 md.fp_offset }
  | .set_local idx =>
    match c.locals_md.get? idx with
    | none => none
    | some md =>
      match pop_stack_typed st.sstack md.valtype with
      | none => none
      | some s1 =>
        some { st with output := st.output ++ [0x8f, 0x85] ++ encode_le_int32 md.fp_offset,
                       sstack := s1 }
  | .get_global gidx => compile_get_global c gidx st
  | .set_global gidx => compile_set_global c gidx st
  | .loadstore op offset => compile_loadstore op offset st
  | .i32_const v =>
    some { st with output := st.output ++ [0x68] ++ encode_le_uint32_t v,
                   sstack := push_stack st.sstack .i32 }
  | .i64_const v =>
    some { st with output := st.output ++ [0x48, 0xb8] ++ encode_le_uint64_t v ++ [0x50],
                   sstack := push_stack st.sstack .i64 }
  | .i32_wrap_i64 =>
    match pop_stack_typed st.sstack .i64 with
    | none => none
    | some s1 =>
      -- mov $0xffffffff,%eax; and %rax,(%rdi) (compile.c lines 1743-1746)
      some { st with output := st.output ++ [0xb8, 0xff, 0xff, 0xff, 0xff] ++ [0x48, 0x21, 0x07],
                     sstack := push_stack s1 .i32 }
  | .i64_extend_u_i32 =>
    match pop_stack_typed st.sstack .i32 with
    | none => none
    | some s1 =>
      -- no bytes: 32-bit values are (per the code comment) stored
      -- zero-extended to 64 bits
      some { st with sstack := push_stack s1 .i64 }
def wasmjit_compile_instructions (c : CompileCtx) (l : InstrList) (st : CompileState) :
    Option CompileState :=
  match l with
  | .nil => some st
  | .cons i rest =>
    match wasmjit_compile_instruction c i st with
    | none => none
    | some st1 => wasmjit_compile_instructions c rest st1
end

/-- compile.c lines 2017-2026: the prologue's frame allocation,
sub $(8 * n_frame_locals), %rsp, emitted only when n_frame_locals is
nonzero; the __builtin_mul_overflow into int32_t fails the compilation
when 8 * n_frame_locals exceeds INT32_MAX. -/
def frameAllocChunk (n_frame_locals : Nat) : Option (List Nat) :=
  if n_frame_locals = 0 then some []
  else if 8 * n_frame_locals ≤ INT32_MAX then
    some ([0x48, 0x81, 0xec] ++ encode_le_uint32_t (8 * n_frame_locals))
  else none

/-- compile.c lines 2114-2123: the epilogue's frame reclamation,
add $(8 * n_frame_locals), %rsp, with the same guard and amount. -/
def frameReclaimChunk (n_frame_locals : Nat) : Option (List Nat) :=
  if n_frame_locals = 0 then some []
  else if 8 * n_frame_locals ≤ INT32_MAX then
    some ([0x48, 0x81, 0xc4] ++ encode_le_uint32_t (8 * n_frame_locals))
  else none

/-- compile.c lines 1921-1945: locals metadata for the parameters.
Register-passed parameters get negative frame slots, the rest positive
incoming-stack offsets 16 + 8*n_stack (with int32 overflow checks).
Also returns the final n_movs and n_xmm_movs counters, which the
caller needs for the remaining locals and for n_frame_locals. -/
def buildParamMD : List Valtype → Nat → Nat → Nat → Option (List LocalsMD × Nat × Nat)
  | [], n_movs, n_xmm_movs, _ => some ([], n_movs, n_xmm_movs)
  | t :: rest, n_movs, n_xmm_movs, n_stack =>
    if (t = .i32 ∨ t = .i64) ∧ n_movs < 6 then
      (buildParamMD rest (n_movs + 1) n_xmm_movs n_stack).map
        (fun r => (⟨t, -(1 + (n_movs : Int) + n_xmm_movs) * 8⟩ :: r.1, r.2))
    else if (t = .f32 ∨ t = .f64) ∧ n_xmm_movs < 8 then
      (buildParamMD rest n_movs (n_xmm_movs + 1) n_stack).map
        (fun r => (⟨t, -(1 + (n_movs : Int) + n_xmm_movs) * 8⟩ :: r.1, r.2))
    else
      if 8 * n_stack ≤ INT32_MAX ∧ 8 * n_stack + 16 ≤ INT32_MAX then
        (buildParamMD rest n_movs n_xmm_movs (n_stack + 1)).map
          (fun r => (⟨t, (16 : Int) + 8 * n_stack⟩ :: r.1, r.2))
      else none

/-- compile.c lines 1947-1966: locals metadata for the declared
(non-parameter) locals: the i-th gets fp_offset
-(1 + n_movs + n_xmm_movs + i) * 8, with int32 overflow checks, and its
valtype from the expanded locals runs. -/
def buildLocalMD (base : Int) : List Valtype → Nat → Option (List LocalsMD)
  | [], _ => some []
  | t :: rest, i =>
    if 8 * i ≤ 2 ^ 31 ∧ ((8 : Int) * i - base) ≤ 2 ^ 31 then
      (buildLocalMD base rest (i + 1)).map (fun r => ⟨t, base - 8 * i⟩ :: r)
    else none

/-- compile.c lines 1906-1912: expansion of the (count, valtype) runs of
the locals section into one valtype per local. -/
def expandLocals (runs : List (Nat × Valtype)) : List Valtype :=
  (runs.map (fun p => List.replicate p.1 p.2)).flatten

/-- compile.c lines 1977-1984: mov reg, N(%rbp) for the six general
argument registers. -/
def prologue_movs : List (List Nat) :=
  [[0x48, 0x89, 0x7d], [0x48, 0x89, 0x75], [0x48, 0x89, 0x55],
   [0x48, 0x89, 0x4d], [0x4c, 0x89, 0x45], [0x4c, 0x89, 0x4d]]

/-- compile.c lines 1986-1995: movss %xmmN, N(%rbp). -/
def prologue_f32_movs : List (List Nat) :=
  [[0xf3, 0x0f, 0x11, 0x45], [0xf3, 0x0f, 0x11, 0x4d], [0xf3, 0x0f, 0x11, 0x55],
   [0xf3, 0x0f, 0x11, 0x5d], [0xf3, 0x0f, 0x11, 0x65], [0xf3, 0x0f, 0x11, 0x6d],
   [0xf3, 0x0f, 0x11, 0x75], [0xf3, 0x0f, 0x11, 0x7d]]

/-- compile.c lines 1997-2006: movsd %xmmN, N(%rbp). -/
def prologue_f64_movs : List (List Nat) :=
  [[0xf2, 0x0f, 0x11, 0x45], [0xf2, 0x0f, 0x11, 0x4d], [0xf2, 0x0f, 0x11, 0x55],
   [0xf2, 0x0f, 0x11, 0x5d], [0xf2, 0x0f, 0x11, 0x65], [0xf2, 0x0f, 0x11, 0x6d],
   [0xf2, 0x0f, 0x11, 0x75], [0xf2, 0x0f, 0x11, 0x7d]]

/-- compile.c lines 2028-2048: the prologue loop spilling the
register-passed parameters into their frame slots.  Parameters with a
positive fp_offset (incoming-stack parameters) are skipped. -/
def spillChunk : List (Valtype × Int) → Nat → Nat → Option (List Nat)
  | [], _, _ => some []
  | (t, fp) :: rest, n_movs, n_xmm_movs =>
    if fp > 0 then spillChunk rest n_movs n_xmm_movs
    else if t = .i32 ∨ t = .i64 then
      match outb fp with
      | none => none
      | some b =>
        (spillChunk rest (n_movs + 1) n_xmm_movs).map
          (fun r => prologue_movs.getD n_movs [] ++ b ++ r)
    else if t = .f32 then
      match outb fp with
      | none => none
      | some b =>
        (spillChunk rest n_movs (n_xmm_movs + 1)).map
          (fun r => prologue_f32_movs.getD n_xmm_movs [] ++ b ++ r)
    else
      match outb fp with
      | none => none
      | some b =>
        (spillChunk rest n_movs (n_xmm_movs + 1)).map
          (fun r => prologue_f64_movs.getD n_xmm_movs [] ++ b ++ r)

/-- compile.c lines 2050-2076: zero-initialization of the declared
locals: one movq $0, (%rsp) for a single local, a cld; rep stosq
block-fill for several. -/
def zeroChunk (k : Nat) : Option (List Nat) :=
  if k = 0 then some []
  else if k = 1 then some [0x48, 0xc7, 0x04, 0x24, 0x00, 0x00, 0x00, 0x00]
  else if k ≤ INT32_MAX then
    some ([0x48, 0x89, 0xe7] ++ [0x48, 0x31, 0xc0]
          ++ [0x48, 0xc7, 0xc1] ++ encode_le_uint32_t k
          ++ [0xfc] ++ [0xf3, 0x48, 0xab])
  else none

/-- compile.c lines 2085-2101: the branch back-patching loop.  For each
branch point, the continuation offset is the current buffer length for
the function-exit sentinel or the label continuation entry otherwise,
and the five bytes e9 + little-endian(target - branch_offset - 5) are
copied over the placeholder jump at branch_offset. -/
def fixBranchPoints (labels : List Nat) : List Nat → List BranchPointElt → Option (List Nat)
  | out, [] => some out
  | out, b :: rest =>
    let target? : Option Nat :=
      if b.continuation_idx = FUNC_EXIT_CONT then some out.length
      else labels.get? b.continuation_idx
    match target? with
    | none => none
    | some target =>
      if b.branch_offset + 5 ≤ out.length then
        let rel : Nat := (((target : Int) - (b.branch_offset : Int) - 5) % (2 ^ 32 : Int)).toNat
        fixBranchPoints labels (storeBytesAt out b.branch_offset (0xe9 :: encode_le_uint32_t rel)) rest
      else none

/-- wasmjit_compile_function (compile.c lines 1890-2138): locals
metadata and frame layout, prologue (push %rbp; mov %rsp,%rbp; the
debug int3; frame allocation; parameter spills; locals zeroing), body,
branch back-patching, epilogue (result pop, frame reclamation,
pop %rbp; retq).  Returns the code buffer and the extended relocation
table. -/
def wasmjit_compile_function (func_types : List FuncType) (module_types : ModuleTypes)
    (type : FuncType) (code : CodeSectionCode) (memrefs : List MemRef) :
    Option (List Nat × List MemRef) :=
  let localTypes := expandLocals code.locals
  match buildParamMD type.inputs 0 0 0 with
  | none => none
  | some (paramMD, n_movs, n_xmm_movs) =>
    match buildLocalMD (-(1 + (n_movs : Int) + n_xmm_movs) * 8) localTypes 0 with
    | none => none
    | some localMD =>
      let locals_md := paramMD ++ localMD
      let n_frame_locals := n_movs + n_xmm_movs + localTypes.length
      match frameAllocChunk n_frame_locals with
      | none => none
      | some alloc =>
        match spillChunk (type.inputs.zip (paramMD.map (fun m => m.fp_offset))) 0 0 with
        | none => none
        | some spill =>
          match zeroChunk localTypes.length with
          | none => none
          | some zero =>
            let pro := [0x55] ++ [0x48, 0x89, 0xe5] ++ [0xcc] ++ alloc ++ spill ++ zero
            let ctx : CompileCtx := ⟨func_types, module_types, type, locals_md, n_frame_locals⟩
            match wasmjit_compile_instructions ctx code.body ⟨pro, [], [], memrefs, []⟩ with
            | none => none
            | some st1 =>
              match fixBranchPoints st1.labels st1.output st1.branches with
              | none => none
              | some fixed =>
                let popPart : Option (List Nat) :=
                  if type.outputs.length = 0 then some []
                  else if type.outputs.length = 1 then
                    match st1.sstack with
                    | [.val t] => if some t = type.outputs.head? then some [0x58] else none
                    | _ => none
                  else none
                match popPart with
                | none => none
                | some pp =>
                  match frameReclaimChunk n_frame_locals with
                  | none => none
                  | some reclaim =>
                    some (fixed ++ pp ++ reclaim ++ [0x5d] ++ [0xc3], st1.memrefs)

/-- Semantics of the bounds-check code that compile_loadstore emits
before every memory access (compile.c lines 1136-1190):
  5e                  pop %rsi            rsi := ea, the popped address
  48 81 c6 imm32      add $imm32, %rsi    imm32 = (4 + offset) mod 2^32,
                                          sign-extended to 64 bits;
                                          omitted when imm32 = 0
  48 b8 (mem)         movq $memaddr, %rax (Mem relocation)
  48 8b 40 xx         mov size_off(%rax), %rax   rax := size
  48 39 c6            cmp %rax, %rsi
  7e 02               jle +2              skip the trap when rsi <= rax,
                                          as a signed 64-bit compare
  cd 04               int $4              the trap
Given ea (the 64-bit cell popped into %rsi), the static offset, and the
size field of the memory instance, returns the final value of %rsi and
whether the int $4 trap executes. -/
def memBoundsCheck (ea offset size : Nat) : Nat × Bool :=
  let imm := (4 + offset) % 2 ^ 32
  let rsi :=
    if imm = 0 then ea % 2 ^ 64
    else (ea + (if imm < 2 ^ 31 then imm else 2 ^ 64 - (2 ^ 32 - imm))) % 2 ^ 64
  (rsi, decide (toInt64 size < toInt64 rsi))

/-- Semantics of the push $imm32 instruction (opcode 0x68) that the
i32.const case emits (compile.c lines 1287-1295): in 64-bit mode the
32-bit immediate is sign-extended to 64 bits and pushed as one 8-byte
stack cell. -/
def pushImm32Cell (v : Nat) : Nat :=
  if v % 2 ^ 32 < 2 ^ 31 then v % 2 ^ 32 else v % 2 ^ 32 + (2 ^ 64 - 2 ^ 32)

/-- The machine state touched by the code emitted for i32.wrap_i64 and
i64.extend_u_i32: the 8-byte cell on top of the physical stack, %rax,
and the 8-byte cell at the address held in %rdi. -/
structure WrapMachState where
  top : Nat
  rax : Nat
  memAtRdi : Nat
deriving DecidableEq

/-- Semantics of the code emitted for i32.wrap_i64 (compile.c lines
1743-1746):
  b8 ff ff ff ff      mov $0xffffffff, %eax   rax := 0xffffffff
                      (writing eax zero-extends into rax)
  48 21 07            and %rax, (%rdi)        the 8-byte cell at [rdi]
                      is masked to its low 32 bits (mod 2^32)
The modrm byte 07 addresses the memory at %rdi: the top-of-stack cell
is not touched. -/
def i32WrapCodeStep (s : WrapMachState) : WrapMachState :=
  { s with rax := 0xffffffff, memAtRdi := s.memAtRdi % 2 ^ 64 % 2 ^ 32 }

/-- Semantics of the code emitted for i64.extend_u_i32 (compile.c lines
1779-1789): no instruction is emitted, the machine state is unchanged. -/
def i64ExtendUCodeStep (s : WrapMachState) : WrapMachState := s

/-- Number of Value (non-label) static stack slots strictly above the
slot that is p positions below the top (the first p list entries with
the head of the list being the top of the stack). -/
def valueSlotsAbove (sstack : List StackElt) (p : Nat) : Nat :=
  ((sstack.take p).filter (fun e => !(isLabelElt e))).length

/-- The stack_shift formula as the spec states it (spec section 4.3,
step 2): 8 * (n_value_slots_above_j - (L+1) - arity), with
n_value_slots_above_j the number of Value slots strictly above the
found label.  Stated over Int since the spec's expression can go
negative. -/
def specStackShift (sstack : List StackElt) (p labelidx arity : Nat) : Int :=
  8 * ((valueSlotsAbove sstack p : Int) - ((labelidx : Int) + 1) - (arity : Int))

@[simp] theorem isLabelElt_val (t : Valtype) : isLabelElt (.val t) = false := rfl

@[simp] theorem isLabelElt_label (a c : Nat) : isLabelElt (.label a c) = true := rfl

/-- Splitting a static stack segment into its label and value slots. -/
theorem filter_label_split (l : List StackElt) :
    (l.filter (fun e => isLabelElt e)).length +
    (l.filter (fun e => !(isLabelElt e))).length = l.length := by
  induction l with
  | nil => simp
  | cons e rest ih => cases e <;> simp [List.filter_cons] <;> omega

/-- The scan of emit_br_code stops at the labelidx-th label from the
top: above the found slot there are exactly labelidx label slots, and
therefore exactly p - labelidx value slots; the found position is in
range. -/
theorem findLabel_take (s : List StackElt) (L p : Nat) (h : findLabel s L = some p) :
    ((s.take p).filter (fun e => isLabelElt e)).length = L ∧
    valueSlotsAbove s p = p - L ∧ p < s.length := by
  induction s generalizing L p with
  | nil => simp [findLabel] at h
  | cons e rest ih =>
    cases e with
    | val t =>
      simp only [findLabel] at h
      cases hf : findLabel rest L with
      | none => rw [hf] at h; simp at h
      | some p' =>
        rw [hf] at h
        simp at h
        obtain ⟨hc, hv, hp⟩ := ih L p' hf
        subst h
        have hsplit := filter_label_split (rest.take p')
        have hlen : (List.take p' rest).length = p' := by
          simp [List.length_take]; omega
        refine ⟨?_, ?_, by simp; omega⟩
        · simpa [List.take, List.filter_cons] using hc
        · have hstep : valueSlotsAbove (StackElt.val t :: rest) (p' + 1)
              = valueSlotsAbove rest p' + 1 := by
            simp [valueSlotsAbove, List.filter_cons]
          rw [hstep, hv]
          have hfle := List.length_filter_le (fun e => isLabelElt e) (rest.take p')
          omega
    | label a c =>
      cases L with
      | zero =>
        simp [findLabel] at h
        subst h
        simp [valueSlotsAbove]
      | succ L' =>
        simp only [findLabel] at h
        cases hf : findLabel rest L' with
        | none => rw [hf] at h; simp at h
        | some p' =>
          rw [hf] at h
          simp at h
          obtain ⟨hc, hv, hp⟩ := ih L' p' hf
          subst h
          refine ⟨?_, ?_, by simp; omega⟩
          · simpa [List.take, List.filter_cons] using hc
          · have hstep : valueSlotsAbove (StackElt.label a c :: rest) (p' + 1)
                = valueSlotsAbove rest p' := by
              simp [valueSlotsAbove, List.filter_cons]
            rw [hstep, hv]
            omega

/-- Claim C1 (amended): for a compiled memory load or store with static
offset off where off + 4 < 2^31, given the popped i32 address ea (below
2^32 per the zero-extension storage convention) and a memory size below
2^63, the emitted bounds check computes ea' = ea + off + 4 in %rsi and
executes the int $4 trap exactly when ea' is strictly greater than the
memory instance's size field (the compare is a signed 64-bit compare,
and the added immediate is the sign-extended value (off + 4) mod 2^32,
which is why offsets with off + 4 >= 2^31 escape this law). -/
theorem C1_bounds_check (ea offset size : Nat)
    (hea : ea < 2 ^ 32) (hoff : 4 + offset < 2 ^ 31) (hsize : size < 2 ^ 63) :
    (memBoundsCheck ea offset size).1 = ea + offset + 4 ∧
    ((memBoundsCheck ea offset size).2 = true ↔ size < ea + offset + 4) := by
  have h1 : (4 + offset) % 2 ^ 32 = 4 + offset := Nat.mod_eq_of_lt (by omega)
  have h2 : ¬(4 + offset = 0) := by omega
  have h3 : (ea + (4 + offset)) % 2 ^ 64 = ea + (4 + offset) :=
    Nat.mod_eq_of_lt (by omega)
  simp only [memBoundsCheck, h1, if_neg h2, if_pos hoff, h3]
  refine ⟨by omega, ?_⟩
  simp only [toInt64, Nat.mod_eq_of_lt (show ea + (4 + offset) < 2 ^ 64 by omega),
    Nat.mod_eq_of_lt (show size < 2 ^ 64 by omega),
    if_pos (show ea + (4 + offset) < 2 ^ 63 by omega),
    if_pos (show size < 2 ^ 63 from hsize), decide_eq_true_eq]
  constructor <;> intro h <;> omega

/-- Witness for C1_bounds_check at ea = 10, off = 0, size = 15. -/
theorem C1_bounds_check_witness :
    (memBoundsCheck 10 0 15).1 = 10 + 0 + 4 ∧
    ((memBoundsCheck 10 0 15).2 = true ↔ 15 < 10 + 0 + 4) :=
  C1_bounds_check 10 0 15 (by decide) (by decide) (by decide)

/-- Claim C1 counterexample: at static offset 2^31 - 4 with ea = 0 and
size = 0, the claim's trap-iff-(ea + off + 4 > size) law fails: the
immediate (off + 4) mod 2^32 = 2^31 is sign-extended to -2^31, the
signed compare sees %rsi = -2^31 <= 0 = size, and the generated code
does not trap although ea + off + 4 = 2^31 > 0. -/
theorem C1_counterexample :
    ¬(((memBoundsCheck 0 (2 ^ 31 - 4) 0).2 = true) ↔ 0 < 0 + (2 ^ 31 - 4) + 4) := by
  decide

/-- Claim C2 (amended): the emitted bounds check does not depend on the
access width at all: with static offset 0, for every memory size (4 <=
size < 2^32), the access succeeds at addr = size - 4 and traps at
addr = size - 3, whatever the opcode's width.  (The claim's statement
holds only for the 4-byte opcodes, where size - lsWidth op = size - 4.) -/
theorem C2_boundary (size : Nat) (h4 : 4 ≤ size) (hsize : size < 2 ^ 32) :
    (memBoundsCheck (size - 4) 0 size).2 = false ∧
    (memBoundsCheck (size - 3) 0 size).2 = true := by
  have e4 : (4 + 0) % 2 ^ 32 = 4 := by decide
  have hm1 : (size - 4 + 4) % 2 ^ 64 = size := by
    rw [Nat.sub_add_cancel h4]; exact Nat.mod_eq_of_lt (by omega)
  have hm2 : (size - 3 + 4) % 2 ^ 64 = size + 1 := by
    have : size - 3 + 4 = size + 1 := by omega
    rw [this]; exact Nat.mod_eq_of_lt (by omega)
  simp only [memBoundsCheck, e4]
  have hif : ∀ m : Nat, (if (4 : Nat) = 0 then m % 2 ^ 64
      else (m + if (4 : Nat) < 2 ^ 31 then 4 else 2 ^ 64 - (2 ^ 32 - 4)) % 2 ^ 64)
      = (m + 4) % 2 ^ 64 := by
    intro m; norm_num
  rw [hif, hif, hm1, hm2]
  simp only [toInt64, Nat.mod_eq_of_lt (show size < 2 ^ 64 by omega),
    Nat.mod_eq_of_lt (show size + 1 < 2 ^ 64 by omega),
    if_pos (show size < 2 ^ 63 by omega), if_pos (show size + 1 < 2 ^ 63 by omega)]
  constructor
  · simp only [decide_eq_false_iff_not]; omega
  · simp only [decide_eq_true_eq]; omega

/-- Witness for C2_boundary at size = 100. -/
theorem C2_boundary_witness :
    (memBoundsCheck (100 - 4) 0 100).2 = false ∧
    (memBoundsCheck (100 - 3) 0 100).2 = true :=
  C2_boundary 100 (by decide) (by decide)

/-- Claim C2 counterexample: for the 1-byte access i32.store8 with
static offset 0 and memory size 4, the claim predicts success at
addr = size - width = 3, but the generated check computes ea' = 7 > 4
and traps: the bounds check always behaves as a 4-byte check. -/
theorem C2_counterexample :
    lsWidth .i32_store8 = 1 ∧
    ¬((memBoundsCheck (4 - lsWidth .i32_store8) 0 4).2 = false) := by
  decide

/-- Claim C3: compiling unreachable is documented (and specified) to
append the two-byte ud2 invalid-opcode instruction, but the string
literal "\x0f\0b" in OUTS contains an embedded NUL after 0x0f, OUTS
measures it with strlen, and the compiled output receives the single
byte 0x0f, which is not the ud2 encoding 0f 0b. -/
theorem C3_unreachable_single_byte :
    wasmjit_compile_instruction ⟨[], ⟨[], []⟩, ⟨[], []⟩, [], 0⟩ .unreachable
        ⟨[], [], [], [], []⟩
      = some ⟨[0x0f], [], [], [], []⟩ ∧
    ([0x0f] : List Nat) ≠ [0x0f, 0x0b] := by
  decide

/-- Claim C4: i32.const v is emitted as push $imm32 (opcode 0x68),
which in 64-bit mode pushes the SIGN-extension of the immediate; at
v = 2^31 the pushed 8-byte cell is 0xffffffff80000000, whose upper 32
bits are not zero, contradicting the zero-extension storage invariant
the code's own extend_u comment relies on.  The static slot pushed is
i32, as claimed. -/
theorem C4_i32_const_sign_extends :
    wasmjit_compile_instruction ⟨[], ⟨[], []⟩, ⟨[], []⟩, [], 0⟩ (.i32_const (2 ^ 31))
        ⟨[], [], [], [], []⟩
      = some ⟨[0x68, 0x00, 0x00, 0x00, 0x80], [], [], [], [.val .i32]⟩ ∧
    pushImm32Cell (2 ^ 31) = 0xffffffff80000000 ∧
    0xffffffff80000000 / 2 ^ 32 ≠ 0 := by
  decide

/-- Claim C5 counterexample: for the static stack with one i32 value
above a zero-arity label (the label being the 0th label from the top at
position p = 1), the code drops 8 bytes, while the spec's formula
8 * (n_value_slots_above_j - (L+1) - arity) = 8 * (1 - 1 - 0) gives 0. -/
theorem C5_counterexample :
    findLabel [.val .i32, .label 0 0] 0 = some 1 ∧
    br_stack_shift [.val .i32, .label 0 0] 0 = some 8 ∧
    specStackShift [.val .i32, .label 0 0] 1 0 0 = 0 ∧ (8 : Int) ≠ 0 := by
  decide

/-- Claim C5 (amended): in emit_br_code for a branch to label index L,
with the found label p slots below the top carrying arity, the number
of physical bytes dropped from %rsp is
8 * (n_value_slots_above_j - arity) (not minus (L+1) as the spec
writes: the C expression n_elts - j - (L+1) - arity counts the label
slots among the dropped entries, and n_value_slots_above_j = p - L). -/
theorem C5_stack_shift (sstack : List StackElt) (labelidx p arity cont : Nat)
    (hfind : findLabel sstack labelidx = some p)
    (hget : sstack.get? p = some (.label arity cont))
    (hassert : labelidx + arity ≤ p)
    (hfit : 8 * (p - labelidx - arity) ≤ INT32_MAX) :
    br_stack_shift sstack labelidx = some (8 * (valueSlotsAbove sstack p - arity)) := by
  have hv := (findLabel_take sstack labelidx p hfind).2.1
  simp only [br_stack_shift, hfind, hget, if_pos hassert, if_pos hfit]
  rw [hv, Nat.sub_sub]

/-- Witness for C5_stack_shift: two value slots above an arity-1 label,
branch to label 0: 8 bytes are dropped. -/
theorem C5_stack_shift_witness :
    br_stack_shift [.val .i32, .val .i64, .label 1 7] 0
      = some (8 * (valueSlotsAbove [.val .i32, .val .i64, .label 1 7] 2 - 1)) :=
  C5_stack_shift [.val .i32, .val .i64, .label 1 7] 0 2 1 7
    (by decide) (by decide) (by decide) (by decide)

/-- Claim C6: the round-trip i32.wrap_i64 then i64.extend_u_i32 is
specified to leave x & 0xffffffff on top of the stack; i64.extend_u_i32
indeed emits no machine code, but the AND emitted for i32.wrap_i64
(48 21 07, and %rax,(%rdi)) addresses the memory at %rdi instead of the
top of the stack, so for the i64 value -1 (top cell 0xffffffffffffffff,
a value that fits in 32 bits) the top cell keeps all 64 bits set
instead of becoming 0x00000000ffffffff. -/
theorem C6_wrap_extend_misses_stack :
    (i64ExtendUCodeStep (i32WrapCodeStep ⟨2 ^ 64 - 1, 0, 0⟩)).top = 2 ^ 64 - 1 ∧
    (2 ^ 64 - 1) % 2 ^ 32 ≠ 2 ^ 64 - 1 ∧
    (wasmjit_compile_instruction ⟨[], ⟨[], []⟩, ⟨[], []⟩, [], 0⟩ .i64_extend_u_i32
        ⟨[], [], [], [], [.val .i32]⟩
      = some ⟨[], [], [], [], [.val .i64]⟩) ∧
    (wasmjit_compile_instruction ⟨[], ⟨[], []⟩, ⟨[], []⟩, [], 0⟩ .i32_wrap_i64
        ⟨[], [], [], [], [.val .i64]⟩
      = some ⟨[0xb8, 0xff, 0xff, 0xff, 0xff, 0x48, 0x21, 0x07], [], [], [], [.val .i32]⟩) := by
  decide

/-- Claim C9: the prologue's frame allocation and the epilogue's frame
reclamation move %rsp by the same amount, 8 * n_frame_locals bytes (the
sub and the add carry the same immediate), and both instructions are
omitted exactly when n_frame_locals is zero. -/
theorem C9_frame_balance (n_frame_locals : Nat) (pro epi : List Nat)
    (hp : frameAllocChunk n_frame_locals = some pro)
    (he : frameReclaimChunk n_frame_locals = some epi) :
    (n_frame_locals = 0 ∧ pro = [] ∧ epi = []) ∨
    (n_frame_locals ≠ 0 ∧
     pro = [0x48, 0x81, 0xec] ++ encode_le_uint32_t (8 * n_frame_locals) ∧
     epi = [0x48, 0x81, 0xc4] ++ encode_le_uint32_t (8 * n_frame_locals)) := by
  by_cases h0 : n_frame_locals = 0
  · left
    refine ⟨h0, ?_, ?_⟩
    · simpa [frameAllocChunk, h0] using hp.symm
    · simpa [frameReclaimChunk, h0] using he.symm
  · right
    by_cases hfit : 8 * n_frame_locals ≤ INT32_MAX
    · refine ⟨h0, ?_, ?_⟩
      · simpa [frameAllocChunk, h0, hfit] using hp.symm
      · simpa [frameReclaimChunk, h0, hfit] using he.symm
    · simp [frameAllocChunk, h0, hfit] at hp

/-- Witness for C9_frame_balance at n_frame_locals = 1. -/
theorem C9_frame_balance_witness :
    ((1 : Nat) = 0 ∧ ([0x48, 0x81, 0xec, 8, 0, 0, 0] : List Nat) = [] ∧
      ([0x48, 0x81, 0xc4, 8, 0, 0, 0] : List Nat) = []) ∨
    ((1 : Nat) ≠ 0 ∧
      ([0x48, 0x81, 0xec, 8, 0, 0, 0] : List Nat)
        = [0x48, 0x81, 0xec] ++ encode_le_uint32_t (8 * 1) ∧
      ([0x48, 0x81, 0xc4, 8, 0, 0, 0] : List Nat)
        = [0x48, 0x81, 0xc4] ++ encode_le_uint32_t (8 * 1)) :=
  C9_frame_balance 1 [0x48, 0x81, 0xec, 8, 0, 0, 0] [0x48, 0x81, 0xc4, 8, 0, 0, 0]
    (by decide) (by decide)

/-- storeBytesAt preserves the buffer length (the back-patches never
grow the code buffer). -/
theorem length_storeBytesAt (bs : List Nat) : ∀ (l : List Nat) (off : Nat),
    (storeBytesAt l off bs).length = l.length := by
  induction bs with
  | nil => intro l off; rfl
  | cons b bs ih => intro l off; rw [storeBytesAt, ih, List.length_set]

/-- Pointwise description of storeBytesAt: positions inside the written
(and in-bounds) window read the written bytes, every other position is
unchanged. -/
theorem getD_storeBytesAt (bs : List Nat) : ∀ (l : List Nat) (off i : Nat),
    (storeBytesAt l off bs).getD i 0 =
    if off ≤ i ∧ i - off < bs.length ∧ i < l.length then bs.getD (i - off) 0
    else l.getD i 0 := by
  induction bs with
  | nil =>
    intro l off i
    rw [storeBytesAt, if_neg]
    rintro ⟨-, h2, -⟩
    simp at h2
  | cons b bs ih =>
    intro l off i
    rw [storeBytesAt, ih (l.set off b) (off + 1) i, List.length_set]
    by_cases hio : i < l.length
    · by_cases hcase : off + 1 ≤ i ∧ i - (off + 1) < bs.length
      · rw [if_pos ⟨hcase.1, hcase.2, hio⟩, if_pos ⟨by omega, by simp; omega, hio⟩]
        have hsub : i - off = (i - (off + 1)) + 1 := by omega
        rw [hsub, List.getD_cons_succ]
      · rw [if_neg (fun hx => hcase ⟨hx.1, hx.2.1⟩)]
        by_cases heq : off = i
        · subst heq
          rw [List.getD_eq_getElem?_getD, List.getElem?_set_self hio]
          rw [if_pos ⟨le_refl _, by simp, hio⟩]
          simp
        · rw [List.getD_eq_getElem?_getD, List.getElem?_set_ne heq,
            ← List.getD_eq_getElem?_getD, if_neg]
          rintro ⟨h1, h2, -⟩
          simp at h2
          exact hcase ⟨by omega, by omega⟩
    · rw [if_neg (by omega), if_neg (by omega)]
      rw [List.getD_eq_getElem?_getD, List.getD_eq_getElem?_getD,
        List.getElem?_eq_none (by rw [List.length_set]; omega),
        List.getElem?_eq_none (by omega)]

/-- The back-patching loop never changes the buffer length. -/
theorem fixBranchPoints_length (labels : List Nat) :
    ∀ (branches : List BranchPointElt) (out out' : List Nat),
    fixBranchPoints labels out branches = some out' → out'.length = out.length := by
  intro branches
  induction branches with
  | nil =>
    intro out out' h
    simp only [fixBranchPoints] at h
    injection h with h
    rw [← h]
  | cons b rest ih =>
    intro out out' h
    simp only [fixBranchPoints] at h
    split at h
    · exact absurd h (by simp)
    · split at h
      · have := ih _ _ h
        rw [this, length_storeBytesAt]
      · exact absurd h (by simp)

/-- Buffer positions whose 5-byte windows are disjoint from every
remaining branch point are untouched by the back-patching loop. -/
theorem fixBranchPoints_untouched (labels : List Nat) :
    ∀ (branches : List BranchPointElt) (out out' : List Nat) (lo n : Nat),
    fixBranchPoints labels out branches = some out' →
    (∀ b ∈ branches, b.branch_offset + 5 ≤ lo ∨ lo + n ≤ b.branch_offset) →
    ∀ k, k < n → out'.getD (lo + k) 0 = out.getD (lo + k) 0 := by
  intro branches
  induction branches with
  | nil =>
    intro out out' lo n h _ k _
    simp only [fixBranchPoints] at h
    injection h with h
    rw [← h]
  | cons b rest ih =>
    intro out out' lo n h hdis k hk
    simp only [fixBranchPoints] at h
    split at h
    · exact absurd h (by simp)
    · split at h
      · have hrest := ih _ _ lo n h (fun b' hb' => hdis b' (List.mem_cons_of_mem b hb')) k hk
        rw [hrest, getD_storeBytesAt, if_neg]
        rintro ⟨h1, h2, -⟩
        rcases hdis b (List.mem_cons_self b rest) with hlt | hgt
        · simp only [List.length_cons, List.length_append] at h2
          simp only [encode_le_uint32_t, List.length_cons, List.length_nil] at h2
          omega
        · omega
      · exact absurd h (by simp)

/-- Helper for C7: the four displacement bytes right after the
overwritten jump opcode read back the written values. -/
theorem readLE32_after_store (out ws4 : List Nat) (off : Nat)
    (hb : off + 5 ≤ out.length) (hlen : ws4.length = 4) :
    readLE32 (storeBytesAt out off (0xe9 :: ws4)) (off + 1)
      = [ws4.getD 0 0, ws4.getD 1 0, ws4.getD 2 0, ws4.getD 3 0] := by
  simp only [readLE32]
  rw [getD_storeBytesAt, getD_storeBytesAt, getD_storeBytesAt, getD_storeBytesAt]
  rw [if_pos ⟨by omega, by simp only [List.length_cons, hlen]; omega, by omega⟩,
      if_pos ⟨by omega, by simp only [List.length_cons, hlen]; omega, by omega⟩,
      if_pos ⟨by omega, by simp only [List.length_cons, hlen]; omega, by omega⟩,
      if_pos ⟨by omega, by simp only [List.length_cons, hlen]; omega, by omega⟩]
  have e1 : off + 1 - off = 1 := by omega
  have e2 : off + 1 + 1 - off = 2 := by omega
  have e3 : off + 1 + 2 - off = 3 := by omega
  have e4 : off + 1 + 3 - off = 4 := by omega
  rw [e1, e2, e3, e4]
  rfl

/-- Helper for C7: readLE32 only depends on the four addressed bytes. -/
theorem readLE32_congr (l1 l2 : List Nat) (lo : Nat)
    (h : ∀ k, k < 4 → l1.getD (lo + k) 0 = l2.getD (lo + k) 0) :
    readLE32 l1 lo = readLE32 l2 lo := by
  have h0 := h 0 (by omega)
  have h1 := h 1 (by omega)
  have h2 := h 2 (by omega)
  have h3 := h 3 (by omega)
  simp only [Nat.add_zero] at h0
  simp only [readLE32, h0, h1, h2, h3]

/-- Claim C7: during branch back-patching, each Branch Table entry
(with pairwise non-overlapping 5-byte jump windows) is resolved to
labels[continuation_id], or to the epilogue's code offset (the buffer
length at fixup time) when continuation_id is the function-exit
sentinel, and the 4 bytes at branch_offset + 1 are overwritten with the
little-endian 32-bit two's complement value target - (branch_offset + 5). -/
theorem C7_branch_fixup (labels : List Nat) :
    ∀ (branches : List BranchPointElt) (out out' : List Nat),
    fixBranchPoints labels out branches = some out' →
    branches.Pairwise (fun b1 b2 => b1.branch_offset + 5 ≤ b2.branch_offset ∨
      b2.branch_offset + 5 ≤ b1.branch_offset) →
    ∀ i (hi : i < branches.length),
    ∃ target : Nat,
      (((branches.get ⟨i, hi⟩).continuation_idx = FUNC_EXIT_CONT ∧ target = out.length) ∨
       ((branches.get ⟨i, hi⟩).continuation_idx ≠ FUNC_EXIT_CONT ∧
        labels.get? (branches.get ⟨i, hi⟩).continuation_idx = some target)) ∧
      readLE32 out' ((branches.get ⟨i, hi⟩).branch_offset + 1) =
        encode_le_uint32_t
          ((((target : Int) - ((branches.get ⟨i, hi⟩).branch_offset : Int) - 5)
            % (2 ^ 32 : Int)).toNat) := by
  intro branches
  induction branches with
  | nil => intro out out' _ _ i hi; exact absurd hi (by simp)
  | cons b rest ih =>
    intro out out' h hp i hi
    have hpr := List.pairwise_cons.mp hp
    simp only [fixBranchPoints] at h
    split at h
    · exact absurd h (by simp)
    · rename_i target heq
      split at h
      · rename_i hbound
        cases i with
        | zero =>
          simp only [List.get]
          refine ⟨target, ?_, ?_⟩
          · by_cases hc : b.continuation_idx = FUNC_EXIT_CONT
            · left
              refine ⟨hc, ?_⟩
              rw [if_pos hc] at heq
              injection heq with heq
              exact heq.symm
            · right
              refine ⟨hc, ?_⟩
              rw [if_neg hc] at heq
              exact heq
          · have huntouched := fixBranchPoints_untouched labels rest _ out'
              (b.branch_offset + 1) 4 h ?_
            · have hcongr := readLE32_congr out' _ (b.branch_offset + 1)
                (fun k hk => huntouched k hk)
              rw [hcongr, readLE32_after_store out _ b.branch_offset hbound
                (by simp [encode_le_uint32_t])]
              rfl
            · intro b' hb'
              rcases hpr.1 b' hb' with hl | hr
              · right; omega
              · left; omega
        | succ j =>
          have hj : j < rest.length := by
            simpa using hi
          have hres := ih _ out' h hpr.2 j hj
          obtain ⟨target', ht, hread⟩ := hres
          simp only [List.get]
          refine ⟨target', ?_, ?_⟩
          · rcases ht with ⟨hc, hlen⟩ | hother
            · left
              refine ⟨hc, ?_⟩
              rw [hlen, length_storeBytesAt]
            · right; exact hother
          · exact hread
      · exact absurd h (by simp)

/-- Witness for C7_branch_fixup: a 12-byte buffer with one branch point
at offset 3 whose continuation 0 resolves to label offset 0; the
displacement bytes become little-endian -8. -/
theorem C7_branch_fixup_witness :
    ∃ target : Nat,
      (((([⟨3, 0⟩] : List BranchPointElt).get ⟨0, by decide⟩).continuation_idx = FUNC_EXIT_CONT ∧
          target = (List.replicate 12 0).length) ∨
       ((([⟨3, 0⟩] : List BranchPointElt).get ⟨0, by decide⟩).continuation_idx ≠ FUNC_EXIT_CONT ∧
        ([0] : List Nat).get? (([⟨3, 0⟩] : List BranchPointElt).get ⟨0, by decide⟩).continuation_idx
          = some target)) ∧
      readLE32 [0, 0, 0, 0xe9, 0xf8, 0xff, 0xff, 0xff, 0, 0, 0, 0]
          ((([⟨3, 0⟩] : List BranchPointElt).get ⟨0, by decide⟩).branch_offset + 1) =
        encode_le_uint32_t
          ((((target : Int) - ((([⟨3, 0⟩] : List BranchPointElt).get ⟨0, by decide⟩).branch_offset : Int) - 5)
            % (2 ^ 32 : Int)).toNat) :=
  C7_branch_fixup [0] [⟨3, 0⟩] (List.replicate 12 0)
    [0, 0, 0, 0xe9, 0xf8, 0xff, 0xff, 0xff, 0, 0, 0, 0]
    (by decide) (by simp) 0 (by decide)

/-- Every Mem or Table relocation in the list carries index 0. -/
def memTableZero (l : List MemRef) : Prop :=
  ∀ r ∈ l, (r.kind = .mem ∨ r.kind = .table) → r.idx = 0

theorem memTableZero_nil : memTableZero [] := by
  intro r hr
  simp at hr

theorem memTableZero_append {a b : List MemRef}
    (ha : memTableZero a) (hb : memTableZero b) : memTableZero (a ++ b) := by
  intro r hr hk
  rcases List.mem_append.mp hr with h | h
  · exact ha r h hk
  · exact hb r h hk

/-- The load/store case appends exactly two Mem relocations, both with
index 0, and leaves the label table alone. -/
theorem compile_loadstore_effects (op : LSOp) (off : Nat) (st st' : CompileState)
    (h : compile_loadstore op off st = some st') :
    (∃ new, st'.memrefs = st.memrefs ++ new ∧ memTableZero new) ∧ st'.labels = st.labels := by
  simp only [compile_loadstore] at h
  split at h
  · exact absurd h (by simp)
  · split at h
    · exact absurd h (by simp)
    · split at h <;>
        (injection h with h; subst h;
         refine ⟨⟨_, rfl, ?_⟩, rfl⟩;
         intro r hr hk;
         simp at hr;
         rcases hr with h1 | h1 <;> (subst h1; rfl))

/-- get_global appends one Global relocation. -/
theorem compile_get_global_effects (c : CompileCtx) (g : Nat) (st st' : CompileState)
    (h : compile_get_global c g st = some st') :
    (∃ new, st'.memrefs = st.memrefs ++ new ∧ memTableZero new) ∧ st'.labels = st.labels := by
  simp only [compile_get_global] at h
  split at h
  · exact absurd h (by simp)
  · injection h with h
    subst h
    refine ⟨⟨_, rfl, ?_⟩, rfl⟩
    intro r hr hk
    simp at hr
    subst hr
    simp at hk

/-- set_global appends one Global relocation. -/
theorem compile_set_global_effects (c : CompileCtx) (g : Nat) (st st' : CompileState)
    (h : compile_set_global c g st = some st') :
    (∃ new, st'.memrefs = st.memrefs ++ new ∧ memTableZero new) ∧ st'.labels = st.labels := by
  simp only [compile_set_global] at h
  split at h
  · exact absurd h (by simp)
  · split at h
    · exact absurd h (by simp)
    · injection h with h
      subst h
      refine ⟨⟨_, rfl, ?_⟩, rfl⟩
      intro r hr hk
      simp at hr
      subst hr
      simp at hk

/-- The ABI shuffle tail of call / call_indirect appends no relocation
and leaves the label table alone. -/
theorem compile_call_abi_effects (ft : FuncType) (d : Nat) (st st' : CompileState)
    (h : compile_call_abi ft d st = some st') :
    st'.memrefs = st.memrefs ∧ st'.labels = st.labels := by
  simp only [compile_call_abi] at h
  split at h
  · exact absurd h (by simp)
  · split at h
    · split at h
      · injection h with h; subst h; exact ⟨rfl, rfl⟩
      · injection h with h; subst h; exact ⟨rfl, rfl⟩
      · exact absurd h (by simp)
    · exact absurd h (by simp)

/- Mutual structural induction over the instruction tree: every
compilation step only appends relocations, appended Mem/Table
relocations all carry index 0, and the label table never shrinks. -/
mutual
theorem compile_instruction_effects (c : CompileCtx) (i : Instr) :
    ∀ st st', wasmjit_compile_instruction c i st = some st' →
    (∃ new, st'.memrefs = st.memrefs ++ new ∧ memTableZero new) ∧
    st.labels.length ≤ st'.labels.length := by
  cases i with
  | unreachable =>
    intro st st' h
    simp only [wasmjit_compile_instruction] at h
    injection h with h
    subst h
    exact ⟨⟨[], by simp, memTableZero_nil⟩, le_refl _⟩
  | nop =>
    intro st st' h
    simp only [wasmjit_compile_instruction] at h
    injection h with h
    subst h
    exact ⟨⟨[], by simp, memTableZero_nil⟩, le_refl _⟩
  | block bt body =>
    intro st st' h
    simp only [wasmjit_compile_instruction] at h
    split at h
    · exact absurd h (by simp)
    · rename_i st2 hbody
      have heff := compile_instructions_effects c body _ st2 hbody
      have h2 := heff.2
      simp only [List.length_append, List.length_cons, List.length_nil] at h2
      split at h <;> split at h <;>
        first
          | (injection h with h; subst h;
             exact ⟨heff.1, by simp only [List.length_set]; omega⟩)
          | exact absurd h (by simp)
  | loop bt body =>
    intro st st' h
    simp only [wasmjit_compile_instruction] at h
    split at h
    · exact absurd h (by simp)
    · rename_i st2 hbody
      have heff := compile_instructions_effects c body _ st2 hbody
      have h2 := heff.2
      simp only [List.length_append, List.length_cons, List.length_nil] at h2
      split at h <;> split at h <;>
        first
          | (injection h with h; subst h;
             exact ⟨heff.1, by simp only [List.length_set]; omega⟩)
          | exact absurd h (by simp)
  | br l =>
    intro st st' h
    simp only [wasmjit_compile_instruction] at h
    split at h
    · exact absurd h (by simp)
    · rename_i out brs heb
      injection h with h
      subst h
      exact ⟨⟨[], by simp, memTableZero_nil⟩, le_refl _⟩
  | br_if l =>
    intro st st' h
    simp only [wasmjit_compile_instruction] at h
    split at h
    · exact absurd h (by simp)
    · split at h
      · exact absurd h (by simp)
      · split at h
        · injection h with h
          subst h
          exact ⟨⟨[], by simp, memTableZero_nil⟩, le_refl _⟩
        · exact absurd h (by simp)
  | ret =>
    intro st st' h
    simp only [wasmjit_compile_instruction] at h
    split at h
    · exact absurd h (by simp)
    · split at h
      · injection h with h
        subst h
        exact ⟨⟨[], by simp, memTableZero_nil⟩, le_refl _⟩
      · exact absurd h (by simp)
  | call fidx =>
    intro st st' h
    simp only [wasmjit_compile_instruction] at h
    split at h
    · exact absurd h (by simp)
    · rename_i ft hft
      have habi := compile_call_abi_effects ft _ _ st' h
      refine ⟨⟨_, habi.1, ?_⟩, ?_⟩
      · intro r hr hk
        simp at hr
        subst hr
        simp at hk
      · have hl : st'.labels = st.labels := habi.2
        rw [hl]
  | call_indirect tidx =>
    intro st st' h
    simp only [wasmjit_compile_instruction] at h
    split at h
    · exact absurd h (by simp)
    · rename_i ft hft
      split at h
      · exact absurd h (by simp)
      · have habi := compile_call_abi_effects ft _ _ st' h
        refine ⟨⟨_, habi.1, ?_⟩, ?_⟩
        · intro r hr hk
          simp at hr
          rcases hr with h1 | h1 | h1 <;> subst h1
          · rfl
          · simp at hk
          · rfl
        · have hl : st'.labels = st.labels := habi.2
          rw [hl]
  | drop =>
    intro st st' h
    simp only [wasmjit_compile_instruction] at h
    split at h
    · exact absurd h (by simp)
    · injection h with h
      subst h
      exact ⟨⟨[], by simp, memTableZero_nil⟩, le_refl _⟩
  | get_local idx =>
    intro st st' h
    simp only [wasmjit_compile_instruction] at h
    split at h
    · exact absurd h (by simp)
    · injection h with h
      subst h
      exact ⟨⟨[], by simp, memTableZero_nil⟩, le_refl _⟩
  | set_local idx =>
    intro st st' h
    simp only [wasmjit_compile_instruction] at h
    split at h
    · exact absurd h (by simp)
    · split at h
      · exact absurd h (by simp)
      · injection h with h
        subst h
        exact ⟨⟨[], by simp, memTableZero_nil⟩, le_refl _⟩
  | get_global g =>
    intro st st' h
    simp only [wasmjit_compile_instruction] at h
    have := compile_get_global_effects c g st st' h
    exact ⟨this.1, by rw [this.2]⟩
  | set_global g =>
    intro st st' h
    simp only [wasmjit_compile_instruction] at h
    have := compile_set_global_effects c g st st' h
    exact ⟨this.1, by rw [this.2]⟩
  | loadstore op off =>
    intro st st' h
    simp only [wasmjit_compile_instruction] at h
    have := compile_loadstore_effects op off st st' h
    exact ⟨this.1, by rw [this.2]⟩
  | i32_const v =>
    intro st st' h
    simp only [wasmjit_compile_instruction] at h
    injection h with h
    subst h
    exact ⟨⟨[], by simp, memTableZero_nil⟩, le_refl _⟩
  | i64_const v =>
    intro st st' h
    simp only [wasmjit_compile_instruction] at h
    injection h with h
    subst h
    exact ⟨⟨[], by simp, memTableZero_nil⟩, le_refl _⟩
  | i32_wrap_i64 =>
    intro st st' h
    simp only [wasmjit_compile_instruction] at h
    split at h
    · exact absurd h (by simp)
    · injection h with h
      subst h
      exact ⟨⟨[], by simp, memTableZero_nil⟩, le_refl _⟩
  | i64_extend_u_i32 =>
    intro st st' h
    simp only [wasmjit_compile_instruction] at h
    split at h
    · exact absurd h (by simp)
    · injection h with h
      subst h
      exact ⟨⟨[], by simp, memTableZero_nil⟩, le_refl _⟩
theorem compile_instructions_effects (c : CompileCtx) (l : InstrList) :
    ∀ st st', wasmjit_compile_instructions c l st = some st' →
    (∃ new, st'.memrefs = st.memrefs ++ new ∧ memTableZero new) ∧
    st.labels.length ≤ st'.labels.length := by
  cases l with
  | nil =>
    intro st st' h
    simp only [wasmjit_compile_instructions] at h
    injection h with h
    subst h
    exact ⟨⟨[], by simp, memTableZero_nil⟩, le_refl _⟩
  | cons i rest =>
    intro st st' h
    simp only [wasmjit_compile_instructions] at h
    split at h
    · exact absurd h (by simp)
    · rename_i st1 h1
      have e1 := compile_instruction_effects c i st st1 h1
      have e2 := compile_instructions_effects c rest st1 st' h
      obtain ⟨⟨n1, hm1, hz1⟩, hl1⟩ := e1
      obtain ⟨⟨n2, hm2, hz2⟩, hl2⟩ := e2
      refine ⟨⟨n1 ++ n2, ?_, memTableZero_append hz1 hz2⟩, le_trans hl1 hl2⟩
      rw [hm2, hm1, List.append_assoc]
end

/-- getD after an in-bounds List.set at the same index. -/
theorem getD_set_self (l : List Nat) (i v : Nat) (h : i < l.length) :
    (l.set i v).getD i 0 = v := by
  rw [List.getD_eq_getElem?_getD, List.getElem?_set_self h]
  rfl

/-- Claim C8: after compiling a block or loop construct, the Label
Table entry for its continuation id (the fresh index allocated at the
construct, the label count at entry) holds the code offset immediately
after the construct's body for block (the block emits no bytes after
its body, so this is the final buffer length), and the code offset of
the start of the body for loop (the loop emits no bytes before its
body, so this is the buffer length at entry). -/
theorem C8_block_loop_labels (c : CompileCtx) (bt : Option Valtype) (body : InstrList)
    (stB stB' stL stL' : CompileState)
    (hb : wasmjit_compile_instruction c (.block bt body) stB = some stB')
    (hl : wasmjit_compile_instruction c (.loop bt body) stL = some stL') :
    stB'.labels.getD stB.labels.length 0 = stB'.output.length ∧
    stL'.labels.getD stL.labels.length 0 = stL.output.length := by
  constructor
  · simp only [wasmjit_compile_instruction] at hb
    split at hb
    · exact absurd hb (by simp)
    · rename_i st2 hbody
      have heff := compile_instructions_effects c body _ st2 hbody
      have h2 := heff.2
      simp only [List.length_append, List.length_cons, List.length_nil] at h2
      split at hb <;> split at hb <;>
        first
          | (injection hb with hb; subst hb;
             exact getD_set_self _ _ _ (by omega))
          | exact absurd hb (by simp)
  · simp only [wasmjit_compile_instruction] at hl
    split at hl
    · exact absurd hl (by simp)
    · rename_i st2 hbody
      have heff := compile_instructions_effects c body _ st2 hbody
      have h2 := heff.2
      simp only [List.length_append, List.length_cons, List.length_nil] at h2
      split at hl <;> split at hl <;>
        first
          | (injection hl with hl; subst hl;
             exact getD_set_self _ _ _ (by omega))
          | exact absurd hl (by simp)

/-- Witness for C8_block_loop_labels: compiling an empty block from a
buffer holding one byte records continuation offset 1 (after the
block); compiling an empty loop from the same state also records offset
1 (the loop head). -/
theorem C8_block_loop_labels_witness :
    (CompileState.labels ⟨[0x90], [1], [], [], []⟩).getD 0 0
      = (CompileState.output ⟨[0x90], [1], [], [], []⟩).length ∧
    (CompileState.labels ⟨[0x90], [1], [], [], []⟩).getD 0 0
      = (CompileState.output ⟨[0x90], [], [], [], []⟩).length :=
  C8_block_loop_labels ⟨[], ⟨[], []⟩, ⟨[], []⟩, [], 0⟩ none .nil
    ⟨[0x90], [], [], [], []⟩ ⟨[0x90], [1], [], [], []⟩
    ⟨[0x90], [], [], [], []⟩ ⟨[0x90], [1], [], [], []⟩
    (by decide) (by decide)

/-- Claim C10: every relocation entry of kind Mem or Table that
wasmjit_compile_function appends to the caller's relocation table has
idx = 0, regardless of the input function: the three sites that append
Mem or Table entries (the size and data fetches of every load/store,
and the table fetch of call_indirect) all hard-code index 0, so
generated memory accesses and indirect calls only ever address memory
instance 0 and table instance 0. -/
theorem C10_mem_table_idx0 (func_types : List FuncType) (module_types : ModuleTypes)
    (type : FuncType) (code : CodeSectionCode) (memrefs : List MemRef)
    (out : List Nat) (memrefs' : List MemRef)
    (h : wasmjit_compile_function func_types module_types type code memrefs
          = some (out, memrefs')) :
    ∃ new, memrefs' = memrefs ++ new ∧ memTableZero new := by
  simp only [wasmjit_compile_function] at h
  split at h
  · exact absurd h (by simp)
  · split at h
    · exact absurd h (by simp)
    · split at h
      · exact absurd h (by simp)
      · split at h
        · exact absurd h (by simp)
        · split at h
          · exact absurd h (by simp)
          · split at h
            · exact absurd h (by simp)
            · rename_i st1 hbody
              split at h
              · exact absurd h (by simp)
              · split at h
                · exact absurd h (by simp)
                · split at h
                  · exact absurd h (by simp)
                  · injection h with h
                    injection h with h1 h2
                    subst h2
                    exact (compile_instructions_effects _ code.body _ st1 hbody).1

/-- Witness for C10_mem_table_idx0: a body i32.const 0; i32.load; drop
compiles to code with exactly two Mem relocations, both with idx 0. -/
theorem C10_mem_table_idx0_witness :
    ∃ new, ([⟨.mem, 20, 0⟩, ⟨.mem, 41, 0⟩] : List MemRef) = [] ++ new ∧ memTableZero new :=
  C10_mem_table_idx0 [] ⟨[], []⟩ ⟨[], []⟩
    ⟨[], .cons (.i32_const 0) (.cons (.loadstore .i32_load 0) (.cons .drop .nil))⟩ []
    [0x55, 0x48, 0x89, 0xe5, 0xcc, 0x68, 0, 0, 0, 0, 0x5e, 0x48, 0x81, 0xc6, 4, 0, 0, 0,
     0x48, 0xb8, 0x90, 0x90, 0x90, 0x90, 0x90, 0x90, 0x90, 0x90, 0x48, 0x8b, 0x40, 0,
     0x48, 0x39, 0xc6, 0x7e, 2, 0xcd, 4,
     0x48, 0xb8, 0x90, 0x90, 0x90, 0x90, 0x90, 0x90, 0x90, 0x90, 0x48, 0x8b, 0x40, 8,
     0x8b, 0x44, 0x30, 0xfc, 0x50, 0x48, 0x83, 0xc4, 8, 0x5d, 0xc3]
    [⟨.mem, 20, 0⟩, ⟨.mem, 41, 0⟩] (by decide)
